import Mathlib

/-!
# CardGener — verification of the document tree model and layout engine

Shallow embedding, in Lean 4, of the core of the CardGener repository:

* the document tree model of `card_generator.py` / `simple_generator.py`
  (recursive field update over nested `{type, name, ..., children}` dicts),
* the read-only field extraction of `ai_image_generator.py`,
* the per-record deep copy (`json.loads(json.dumps(template))`),
* the grid compositing, resolution rescale and pagination of
  `image_stitcher.py`,
* the bounds-driven overlay placement of `cardconjurer_automation.py`.

Python dicts are modelled by a `Node` tree whose label carries the string
fields the code reads or writes (`type`, `name`, `text`, `src`, `thumb`);
a missing key behaves, for every operation modelled here, like a value
that never matches (for `type`/`name`) or like the empty string (for
`text`, which the code reads with `data.get('text', '')`), so plain
`String` fields are an adequate model.  A missing `'children'` key
behaves exactly like an empty child list.
-/

/-- RGB color triple as used by PIL `Image.new('RGB', …, color)`. -/
abbrev RGB := Nat × Nat × Nat

/-- Label of one dict node of a CardConjurer JSON document: the string keys
the repository's tree operations read or write. -/
structure NodeLabel where
  type : String
  name : String
  text : String
  src : String
  thumb : String
  deriving Repr, DecidableEq

/-- A CardConjurer document subtree: a dict with the fields of `NodeLabel`
plus an ordered `children` list. -/
inductive Node where
  | node (label : NodeLabel) (children : List Node)
  deriving Repr

namespace Node

mutual

/-- Structural equality test for trees (needed because `deriving
DecidableEq` does not handle nested inductives). -/
def beqNode : Node → Node → Bool
  | .node l cs, .node l' cs' => l == l' && beqNodeList cs cs'
  termination_by structural n => n

/-- Pointwise `beqNode` on child lists. -/
def beqNodeList : List Node → List Node → Bool
  | [], [] => true
  | c :: cs, c' :: cs' => beqNode c c' && beqNodeList cs cs'
  | _, _ => false
  termination_by structural l => l

end

mutual

theorem beqNode_iff : ∀ a b : Node, beqNode a b = true ↔ a = b
  | .node l cs, .node l' cs' => by
    simp only [beqNode, Bool.and_eq_true, beq_iff_eq, Node.node.injEq]
    exact and_congr Iff.rfl (beqNodeList_iff cs cs')
  termination_by structural a => a

theorem beqNodeList_iff : ∀ a b : List Node, beqNodeList a b = true ↔ a = b
  | [], [] => by simp [beqNodeList]
  | [], _ :: _ => by simp [beqNodeList]
  | _ :: _, [] => by simp [beqNodeList]
  | c :: cs, c' :: cs' => by
    simp only [beqNodeList, Bool.and_eq_true, List.cons.injEq]
    exact and_congr (beqNode_iff c c') (beqNodeList_iff cs cs')
  termination_by structural a => a

end

instance : DecidableEq Node := fun a b =>
  decidable_of_iff (beqNode a b = true) (beqNode_iff a b)

/-- The label of a node. -/
def labelOf : Node → NodeLabel
  | .node l _ => l

/-- The children of a node. -/
def childrenOf : Node → List Node
  | .node _ cs => cs

/-- `data.get('type') == field_type and data.get('name') == field_name`
(`simple_generator.py` line 21, `card_generator.py` lines 37/57). -/
def matchesB (ftype fname : String) (n : Node) : Bool :=
  n.labelOf.type == ftype && n.labelOf.name == fname

/-- The per-node mutation of `update_field` (`simple_generator.py`
lines 22–25): `data['text'] = value` when the requested type is `'text'`,
`data['src'] = value` when it is `'image'`. -/
def applyVal (ftype value : String) (l : NodeLabel) : NodeLabel :=
  if ftype = "text" then { l with text := value }
  else if ftype = "image" then { l with src := value }
  else l

mutual

/-- `update_field(data, field_type, field_name, value)` of
`simple_generator.py` lines 19–32, as a pure function: the returned tree is
the state of the (in Python, mutated in place) dict after the call, the
returned Bool is the function's return value. -/
def update_field (ftype fname value : String) : Node → Node × Bool
  | .node l cs =>
    if matchesB ftype fname (.node l cs) then
      (.node (applyVal ftype value l) cs, true)
    else
      let r := updateList ftype fname value cs
      (.node l r.1, r.2)
  termination_by structural n => n

/-- The `for child in data['children']` loop of `update_field`
(`simple_generator.py` lines 28–31): children are visited in order; the
first recursive call returning `True` short-circuits the loop. -/
def updateList (ftype fname value : String) : List Node → List Node × Bool
  | [] => ([], false)
  | c :: cs =>
    let p := update_field ftype fname value c
    if p.2 then (p.1 :: cs, true)
    else
      let q := updateList ftype fname value cs
      (p.1 :: q.1, q.2)
  termination_by structural l => l

end

mutual

/-- `CardGenerator.update_text_field` (`card_generator.py` lines 28–46):
the `'text'`-specialised recursion. -/
def update_text_field (fname value : String) : Node → Node × Bool
  | .node l cs =>
    if l.type == "text" && l.name == fname then
      (.node { l with text := value } cs, true)
    else
      let r := update_text_list fname value cs
      (.node l r.1, r.2)
  termination_by structural n => n

/-- Child loop of `update_text_field` (`card_generator.py` lines 41–44). -/
def update_text_list (fname value : String) : List Node → List Node × Bool
  | [] => ([], false)
  | c :: cs =>
    let p := update_text_field fname value c
    if p.2 then (p.1 :: cs, true)
    else
      let q := update_text_list fname value cs
      (p.1 :: q.1, q.2)
  termination_by structural l => l

end

mutual

/-- `CardGenerator.update_image_field` (`card_generator.py` lines 48–66):
the `'image'`-specialised recursion. -/
def update_image_field (fname value : String) : Node → Node × Bool
  | .node l cs =>
    if l.type == "image" && l.name == fname then
      (.node { l with src := value } cs, true)
    else
      let r := update_image_list fname value cs
      (.node l r.1, r.2)
  termination_by structural n => n

/-- Child loop of `update_image_field` (`card_generator.py` lines 61–64). -/
def update_image_list (fname value : String) : List Node → List Node × Bool
  | [] => ([], false)
  | c :: cs =>
    let p := update_image_field fname value c
    if p.2 then (p.1 :: cs, true)
    else
      let q := update_image_list fname value cs
      (p.1 :: q.1, q.2)
  termination_by structural l => l

end

/-- Address of a node inside a tree: the list of child indices on the way
down from the root. -/
abbrev Path := List Nat

/-- The node sitting at a path, if the path is valid. -/
def getN : Node → Path → Option Node
  | n, [] => some n
  | .node _ cs, i :: p =>
    match cs[i]? with
    | some c => getN c p
    | none => none

/-- The label at a path, if the path is valid. -/
def getLabel (t : Node) (p : Path) : Option NodeLabel :=
  (getN t p).map labelOf

mutual

/-- All valid paths of a tree, listed in depth-first pre-order. -/
def pathsOf : Node → List Path
  | .node _ cs => [] :: pathsList 0 cs
  termination_by structural n => n

/-- Paths into a child list whose first child has index `i`, pre-order. -/
def pathsList : Nat → List Node → List Path
  | _, [] => []
  | i, c :: cs => (pathsOf c).map (fun p => i :: p) ++ pathsList (i + 1) cs
  termination_by structural _ l => l

end

/-- Whether the node at path `p` of `t` matches `(ftype, fname)`. -/
def matchAt (ftype fname : String) (t : Node) (p : Path) : Bool :=
  ((getN t p).map (matchesB ftype fname)).getD false

/-- The pre-order-first path of a `(ftype, fname)`-matching node, if any:
the first entry of the pre-order path enumeration whose node matches. -/
def firstMatch (ftype fname : String) (t : Node) : Option Path :=
  (pathsOf t).find? (matchAt ftype fname t)

/-- Path lookup relative to a child list: child index then path. -/
def getF (cs : List Node) (j : Nat) (p : Path) : Option Node :=
  match cs[j]? with
  | some c => getN c p
  | none => none

/-- Label lookup relative to a child list. -/
def getLabelF (cs : List Node) (j : Nat) (p : Path) : Option NodeLabel :=
  (getF cs j p).map labelOf

theorem getN_cons (l : NodeLabel) (cs : List Node) (j : Nat) (p : Path) :
    getN (.node l cs) (j :: p) = getF cs j p := rfl

theorem getF_cons_zero (c : Node) (cs : List Node) (p : Path) :
    getF (c :: cs) 0 p = getN c p := by
  simp [getF]

theorem getF_cons_succ (c : Node) (cs : List Node) (j : Nat) (p : Path) :
    getF (c :: cs) (j + 1) p = getF cs j p := by
  simp [getF]

mutual

/-- Recursive computation of the pre-order-first matching path; proved equal
to `firstMatch` below. -/
def firstMatchA (ftype fname : String) : Node → Option Path
  | .node l cs =>
    if matchesB ftype fname (.node l cs) then some []
    else (firstMatchLA ftype fname cs).map (fun jp => jp.1 :: jp.2)
  termination_by structural n => n

/-- Pre-order-first matching (child index, path) within a child list. -/
def firstMatchLA (ftype fname : String) : List Node → Option (Nat × Path)
  | [] => none
  | c :: cs =>
    match firstMatchA ftype fname c with
    | some p => some (0, p)
    | none => (firstMatchLA ftype fname cs).map (fun jp => (jp.1 + 1, jp.2))
  termination_by structural l => l

end

theorem getLabel_node_nil (l : NodeLabel) (cs : List Node) :
    getLabel (.node l cs) [] = some l := rfl

theorem getLabel_node_cons (l : NodeLabel) (cs : List Node) (j : Nat) (p : Path) :
    getLabel (.node l cs) (j :: p) = getLabelF cs j p := rfl

theorem getLabelF_cons_zero (c : Node) (cs : List Node) (p : Path) :
    getLabelF (c :: cs) 0 p = getLabel c p := by
  unfold getLabelF getLabel
  rw [getF_cons_zero]

theorem getLabelF_cons_succ (c : Node) (cs : List Node) (j : Nat) (p : Path) :
    getLabelF (c :: cs) (j + 1) p = getLabelF cs j p := by
  unfold getLabelF
  rw [getF_cons_succ]

mutual

/-- Full characterisation of `update_field` against the pre-order-first
matching path: no match leaves the tree unchanged and returns `false`; a
match returns `true`, rewrites exactly the label at the first matching
path, and preserves every other label and the whole tree shape. -/
theorem update_field_spec (ftype fname v : String) : ∀ t : Node,
    (firstMatchA ftype fname t = none → update_field ftype fname v t = (t, false))
    ∧ (∀ p₀, firstMatchA ftype fname t = some p₀ →
        (update_field ftype fname v t).2 = true
        ∧ getLabel (update_field ftype fname v t).1 p₀
            = (getLabel t p₀).map (applyVal ftype v)
        ∧ (∀ q, q ≠ p₀ → getLabel (update_field ftype fname v t).1 q = getLabel t q)
        ∧ (∀ q, (getN (update_field ftype fname v t).1 q).isSome
            = (getN t q).isSome))
  | .node l cs => by
    cases hm : matchesB ftype fname (.node l cs) with
    | true =>
      have hu : update_field ftype fname v (.node l cs)
          = (.node (applyVal ftype v l) cs, true) := by
        simp [update_field, hm]
      have hf : firstMatchA ftype fname (.node l cs) = some [] := by
        simp [firstMatchA, hm]
      refine ⟨fun h => by simp [hf] at h, fun p₀ h => ?_⟩
      rw [hf, Option.some.injEq] at h
      subst h
      refine ⟨by rw [hu], ?_, ?_, ?_⟩
      · rw [hu, getLabel_node_nil, getLabel_node_nil, Option.map_some']
      · intro q hq
        cases q with
        | nil => exact absurd rfl hq
        | cons k q' => rw [hu, getLabel_node_cons, getLabel_node_cons]
      · intro q
        cases q with
        | nil => rw [hu]; rfl
        | cons k q' => rw [hu, getN_cons, getN_cons]
    | false =>
      have hu : update_field ftype fname v (.node l cs)
          = (.node l (updateList ftype fname v cs).1,
             (updateList ftype fname v cs).2) := by
        simp [update_field, hm]
      have hf : firstMatchA ftype fname (.node l cs)
          = (firstMatchLA ftype fname cs).map (fun jp => jp.1 :: jp.2) := by
        simp [firstMatchA, hm]
      obtain ⟨hLnone, hLsome⟩ := updateList_spec ftype fname v cs
      refine ⟨?_, ?_⟩
      · intro h
        rw [hf, Option.map_eq_none'] at h
        rw [hu, hLnone h]
      · intro p₀ h
        rw [hf, Option.map_eq_some'] at h
        obtain ⟨⟨j, p⟩, hjp, heq⟩ := h
        obtain rfl : j :: p = p₀ := heq
        obtain ⟨h2, hlab, hframe, hshape⟩ := hLsome j p hjp
        refine ⟨by rw [hu]; exact h2, ?_, ?_, ?_⟩
        · rw [hu, getLabel_node_cons, getLabel_node_cons]
          exact hlab
        · intro q hq
          cases q with
          | nil => rw [hu, getLabel_node_nil, getLabel_node_nil]
          | cons k q' =>
            rw [hu, getLabel_node_cons, getLabel_node_cons]
            refine hframe k q' ?_
            intro ⟨hk, hq'⟩
            exact hq (by rw [hk, hq'])
        · intro q
          cases q with
          | nil => rw [hu]; rfl
          | cons k q' =>
            rw [hu, getN_cons, getN_cons]
            exact hshape k q'
  termination_by structural t => t

/-- List-level companion of `update_field_spec` for the child loop. -/
theorem updateList_spec (ftype fname v : String) : ∀ cs : List Node,
    (firstMatchLA ftype fname cs = none → updateList ftype fname v cs = (cs, false))
    ∧ (∀ j₀ p₀, firstMatchLA ftype fname cs = some (j₀, p₀) →
        (updateList ftype fname v cs).2 = true
        ∧ getLabelF (updateList ftype fname v cs).1 j₀ p₀
            = (getLabelF cs j₀ p₀).map (applyVal ftype v)
        ∧ (∀ k q, ¬(k = j₀ ∧ q = p₀) →
            getLabelF (updateList ftype fname v cs).1 k q = getLabelF cs k q)
        ∧ (∀ k q, (getF (updateList ftype fname v cs).1 k q).isSome
            = (getF cs k q).isSome))
  | [] => by
    refine ⟨fun _ => by simp [updateList], fun j₀ p₀ h => ?_⟩
    simp [firstMatchLA] at h
  | c :: cs => by
    obtain ⟨hc_none, hc_some⟩ := update_field_spec ftype fname v c
    obtain ⟨hcs_none, hcs_some⟩ := updateList_spec ftype fname v cs
    cases hfc : firstMatchA ftype fname c with
    | some p =>
      obtain ⟨h2, hlab, hframe, hshape⟩ := hc_some p hfc
      have hu : updateList ftype fname v (c :: cs)
          = ((update_field ftype fname v c).1 :: cs, true) := by
        simp [updateList, h2]
      have hfL : firstMatchLA ftype fname (c :: cs) = some (0, p) := by
        simp [firstMatchLA, hfc]
      refine ⟨fun h => by simp [hfL] at h, fun j₀ p₀ h => ?_⟩
      rw [hfL, Option.some.injEq] at h
      obtain ⟨rfl, rfl⟩ : 0 = j₀ ∧ p = p₀ := Prod.ext_iff.mp h
      refine ⟨by rw [hu], ?_, ?_, ?_⟩
      · rw [hu, getLabelF_cons_zero, getLabelF_cons_zero]
        exact hlab
      · intro k q hkq
        cases k with
        | zero =>
          rw [hu, getLabelF_cons_zero, getLabelF_cons_zero]
          exact hframe q (fun hq => hkq ⟨rfl, hq⟩)
        | succ k' => rw [hu, getLabelF_cons_succ, getLabelF_cons_succ]
      · intro k q
        cases k with
        | zero =>
          rw [hu, getF_cons_zero, getF_cons_zero]
          exact hshape q
        | succ k' => rw [hu, getF_cons_succ, getF_cons_succ]
    | none =>
      have hcf : update_field ftype fname v c = (c, false) := hc_none hfc
      have hu : updateList ftype fname v (c :: cs)
          = (c :: (updateList ftype fname v cs).1,
             (updateList ftype fname v cs).2) := by
        simp [updateList, hcf]
      have hfL : firstMatchLA ftype fname (c :: cs)
          = (firstMatchLA ftype fname cs).map (fun jp => (jp.1 + 1, jp.2)) := by
        simp [firstMatchLA, hfc]
      refine ⟨?_, ?_⟩
      · intro h
        rw [hfL, Option.map_eq_none'] at h
        rw [hu, hcs_none h]
      · intro j₀ p₀ h
        rw [hfL, Option.map_eq_some'] at h
        obtain ⟨⟨j, p⟩, hjp, heq⟩ := h
        obtain ⟨rfl, rfl⟩ : j + 1 = j₀ ∧ p = p₀ := Prod.ext_iff.mp heq
        obtain ⟨h2, hlab, hframe, hshape⟩ := hcs_some j p hjp
        refine ⟨by rw [hu]; exact h2, ?_, ?_, ?_⟩
        · rw [hu, getLabelF_cons_succ, getLabelF_cons_succ]
          exact hlab
        · intro k q hkq
          cases k with
          | zero => rw [hu, getLabelF_cons_zero, getLabelF_cons_zero]
          | succ k' =>
            rw [hu, getLabelF_cons_succ, getLabelF_cons_succ]
            refine hframe k' q ?_
            intro ⟨hk, hq⟩
            exact hkq ⟨by rw [hk], hq⟩
        · intro k q
          cases k with
          | zero => rw [hu, getF_cons_zero, getF_cons_zero]
          | succ k' =>
            rw [hu, getF_cons_succ, getF_cons_succ]
            exact hshape k' q
  termination_by structural cs => cs

end

mutual

/-- The recursive first-match computation agrees with the pre-order
`find?` over the path enumeration. -/
theorem firstMatchA_eq_firstMatch (ftype fname : String) : ∀ t : Node,
    firstMatchA ftype fname t = firstMatch ftype fname t
  | .node l cs => by
    rw [firstMatch, pathsOf]
    cases hm : matchesB ftype fname (.node l cs) with
    | true =>
      have hM : matchAt ftype fname (.node l cs) [] = true := by
        simp [matchAt, getN, hm]
      rw [List.find?_cons_of_pos _ hM]
      simp [firstMatchA, hm]
    | false =>
      have hM : ¬ matchAt ftype fname (.node l cs) [] = true := by
        simp [matchAt, getN, hm]
      rw [List.find?_cons_of_neg _ hM]
      rw [firstMatchLA_eq_find? ftype fname cs 0 l cs (by intro j; rw [Nat.zero_add])]
      rw [firstMatchA]
      simp only [hm, Bool.false_eq_true, if_false]
      cases firstMatchLA ftype fname cs with
      | none => rfl
      | some jp => simp

/-- List-level companion of `firstMatchA_eq_firstMatch`: on the suffix of
the root's child list starting at absolute child index `i`. -/
theorem firstMatchLA_eq_find? (ftype fname : String) :
    ∀ (cs : List Node) (i : Nat) (l : NodeLabel) (cs₀ : List Node),
    (∀ j, cs₀[i + j]? = cs[j]?) →
    (pathsList i cs).find? (matchAt ftype fname (.node l cs₀))
      = (firstMatchLA ftype fname cs).map (fun jp => (i + jp.1) :: jp.2)
  | [] => by
    intro i l cs₀ _
    simp [pathsList, firstMatchLA]
  | c :: cs => by
    intro i l cs₀ hsub
    have hc0 : cs₀[i]? = some c := by
      have h := hsub 0
      simpa using h
    rw [pathsList, List.find?_append]
    have hcomp : (matchAt ftype fname (.node l cs₀)) ∘ (fun p => i :: p)
        = matchAt ftype fname c := by
      funext p
      simp only [Function.comp_apply, matchAt, getN, hc0]
    have hmap : ((pathsOf c).map (fun p => i :: p)).find?
          (matchAt ftype fname (.node l cs₀))
        = (firstMatchA ftype fname c).map (fun p => i :: p) := by
      rw [List.find?_map, hcomp, firstMatchA_eq_firstMatch ftype fname c, firstMatch]
    rw [hmap]
    cases hfc : firstMatchA ftype fname c with
    | some p =>
      simp [firstMatchLA, hfc]
    | none =>
      have hsub' : ∀ j, cs₀[(i + 1) + j]? = cs[j]? := by
        intro j
        have h := hsub (j + 1)
        rw [show i + (j + 1) = (i + 1) + j by omega] at h
        simpa using h
      rw [Option.map_none', Option.none_or,
        firstMatchLA_eq_find? ftype fname cs (i + 1) l cs₀ hsub']
      rw [firstMatchLA]
      simp only [hfc]
      cases firstMatchLA ftype fname cs with
      | none => rfl
      | some jp =>
        simp only [Option.map_some', Option.map_map, Function.comp_apply,
          Option.some.injEq, List.cons.injEq]
        exact ⟨by omega, trivial⟩
  termination_by structural cs => cs

end

mutual

/-- A valid path of a tree occurs in its pre-order path enumeration. -/
theorem mem_pathsOf : ∀ (t : Node) (p : Path), (getN t p).isSome → p ∈ pathsOf t
  | .node l cs, [] => by
    intro _
    rw [pathsOf]
    exact List.mem_cons_self _ _
  | .node l cs, i :: p => by
    intro h
    rw [getN_cons] at h
    rw [getF] at h
    rw [pathsOf]
    refine List.mem_cons_of_mem _ ?_
    cases hc : cs[i]? with
    | none => rw [hc] at h; simp at h
    | some c =>
      rw [hc] at h
      have := mem_pathsList cs 0 i p c hc h
      simpa using this

/-- List-level companion of `mem_pathsOf`. -/
theorem mem_pathsList : ∀ (cs : List Node) (i₀ i : Nat) (p : Path) (c : Node),
    cs[i]? = some c → (getN c p).isSome → ((i₀ + i) :: p) ∈ pathsList i₀ cs
  | [], _, i, p, c => by
    intro h _
    simp at h
  | c' :: cs, i₀, 0, p, c => by
    intro h1 h2
    rw [List.getElem?_cons_zero, Option.some.injEq] at h1
    rw [pathsList]
    refine List.mem_append_left _ ?_
    refine List.mem_map.mpr ⟨p, mem_pathsOf c' p (by rw [h1]; exact h2), ?_⟩
    rw [Nat.add_zero]
  | c' :: cs, i₀, i + 1, p, c => by
    intro h1 h2
    rw [List.getElem?_cons_succ] at h1
    rw [pathsList]
    refine List.mem_append_right _ ?_
    have := mem_pathsList cs (i₀ + 1) i p c h1 h2
    rw [show i₀ + (i + 1) = (i₀ + 1) + i by omega]
    exact this
  termination_by structural cs => cs

end

mutual

theorem update_text_field_eq (fname v : String) : ∀ t : Node,
    update_text_field fname v t = update_field "text" fname v t
  | .node l cs => by
    rw [update_text_field, update_field, update_text_list_eq fname v cs]
    simp [matchesB, labelOf, applyVal]
  termination_by structural t => t

theorem update_text_list_eq (fname v : String) : ∀ cs : List Node,
    update_text_list fname v cs = updateList "text" fname v cs
  | [] => rfl
  | c :: cs => by
    rw [update_text_list, updateList, update_text_field_eq fname v c,
      update_text_list_eq fname v cs]
  termination_by structural cs => cs

end

mutual

theorem update_image_field_eq (fname v : String) : ∀ t : Node,
    update_image_field fname v t = update_field "image" fname v t
  | .node l cs => by
    rw [update_image_field, update_field, update_image_list_eq fname v cs]
    simp [matchesB, labelOf, applyVal]
  termination_by structural t => t

theorem update_image_list_eq (fname v : String) : ∀ cs : List Node,
    update_image_list fname v cs = updateList "image" fname v cs
  | [] => rfl
  | c :: cs => by
    rw [update_image_list, updateList, update_image_field_eq fname v c,
      update_image_list_eq fname v cs]
  termination_by structural cs => cs

end

/-- Example document for exercising `update_field`: a group whose children
are two `text` nodes both named `Title`. -/
def c1Tree : Node :=
  .node ⟨"group", "root", "", "", ""⟩
    [.node ⟨"text", "Title", "old1", "", ""⟩ [],
     .node ⟨"text", "Title", "old2", "", ""⟩ []]

/-- **C1.** `update_field` (`simple_generator.py`) and the kind-specialised
`update_text_field` / `update_image_field` (`card_generator.py`) perform a
depth-first pre-order traversal: the returned flag is `true` iff some node
of the tree matches `(kind, name)`; when no node matches the tree is
returned unchanged with `false`; when a node matches, exactly the label at
the pre-order-first matching path receives the kind-appropriate new value,
every other node's label is unchanged (in particular any later node with
the same kind and name), and the shape of the tree is preserved. -/
theorem c1_findAndUpdate_first_match (ftype fname v : String) (t : Node) :
    ((update_field ftype fname v t).2 = true
      ↔ ∃ p, matchAt ftype fname t p = true)
    ∧ (firstMatch ftype fname t = none → update_field ftype fname v t = (t, false))
    ∧ (∀ p₀, firstMatch ftype fname t = some p₀ →
        (update_field ftype fname v t).2 = true
        ∧ getLabel (update_field ftype fname v t).1 p₀
            = (getLabel t p₀).map (applyVal ftype v)
        ∧ (∀ q, q ≠ p₀ → getLabel (update_field ftype fname v t).1 q = getLabel t q)
        ∧ (∀ q, (getN (update_field ftype fname v t).1 q).isSome
            = (getN t q).isSome))
    ∧ update_text_field fname v t = update_field "text" fname v t
    ∧ update_image_field fname v t = update_field "image" fname v t := by
  obtain ⟨hnone, hsome⟩ := update_field_spec ftype fname v t
  have hbr := firstMatchA_eq_firstMatch ftype fname t
  refine ⟨?_, fun h => hnone (hbr.trans h), fun p₀ h => hsome p₀ (hbr.trans h),
    update_text_field_eq fname v t, update_image_field_eq fname v t⟩
  constructor
  · intro h2
    cases hf : firstMatch ftype fname t with
    | none =>
      have hu := hnone (hbr.trans hf)
      rw [hu] at h2
      simp at h2
    | some p₀ =>
      exact ⟨p₀, List.find?_some hf⟩
  · rintro ⟨p, hp⟩
    have hval : (getN t p).isSome := by
      unfold matchAt at hp
      cases hg : getN t p with
      | none => rw [hg] at hp; simp at hp
      | some n => simp [hg]
    have hmem : p ∈ pathsOf t := mem_pathsOf t p hval
    have hs : (firstMatch ftype fname t).isSome := by
      unfold firstMatch
      rw [List.find?_isSome]
      exact ⟨p, hmem, hp⟩
    obtain ⟨p₀, hp₀⟩ := Option.isSome_iff_exists.mp hs
    exact (hsome p₀ (hbr.trans hp₀)).1

/-- Witness for C1 on `c1Tree`: the first `Title` node is updated, the
second one keeps its label. -/
theorem c1_findAndUpdate_first_match_witness :
    (update_field "text" "Title" "New" c1Tree).2 = true
    ∧ getLabel (update_field "text" "Title" "New" c1Tree).1 [1]
        = getLabel c1Tree [1] :=
  ⟨((c1_findAndUpdate_first_match "text" "Title" "New" c1Tree).2.2.1 [0]
      (by decide)).1,
   ((c1_findAndUpdate_first_match "text" "Title" "New" c1Tree).2.2.1 [0]
      (by decide)).2.2.1 [1] (by decide)⟩


mutual

/-- `find_text_field(data, field_name)` of `ai_image_generator.py`
lines 597–606: returns the node's `data.get('text', '')` on a
`('text', field_name)` match, otherwise scans children in order keeping
the first truthy (non-empty) recursive result, and returns `''` at the
end of the scan. -/
def find_text_field (fname : String) : Node → String
  | .node l cs =>
    if l.type == "text" && l.name == fname then l.text
    else findTextList fname cs
  termination_by structural n => n

/-- The `for child in data['children']` loop of `find_text_field`
(`ai_image_generator.py` lines 602–605): `if result: return result`. -/
def findTextList (fname : String) : List Node → String
  | [] => ""
  | c :: cs =>
    let r := find_text_field fname c
    if r ≠ "" then r else findTextList fname cs
  termination_by structural l => l

end

/-- The spec's `extractByName`, written from the spec's words: the text
value of the first node matching `(text, name)` in depth-first pre-order,
and the empty string when no node matches.  To be compared against the
source-translated `find_text_field`. -/
def extractByNameSpec (fname : String) (t : Node) : String :=
  match firstMatch "text" fname t with
  | some p => ((getLabel t p).map NodeLabel.text).getD ""
  | none => ""

mutual

/-- When every `('text', fname)`-matching node of the tree carries
non-empty text, `find_text_field` returns the text at the pre-order-first
matching path (and that text is non-empty), and `''` when nothing
matches. -/
theorem findText_spec (fname : String) : ∀ t : Node,
    (∀ p, matchAt "text" fname t p = true →
      ((getLabel t p).map NodeLabel.text).getD "" ≠ "") →
    (firstMatchA "text" fname t = none → find_text_field fname t = "")
    ∧ (∀ p₀, firstMatchA "text" fname t = some p₀ →
        find_text_field fname t = ((getLabel t p₀).map NodeLabel.text).getD ""
        ∧ find_text_field fname t ≠ "")
  | .node l cs => by
    intro hyp
    cases hm : (l.type == "text" && l.name == fname) with
    | true =>
      have hf : firstMatchA "text" fname (.node l cs) = some [] := by
        simp only [firstMatchA, matchesB, labelOf, hm, if_true]
      have hfind : find_text_field fname (.node l cs) = l.text := by
        rw [find_text_field, if_pos hm]
      refine ⟨fun h => by simp [hf] at h, fun p₀ h => ?_⟩
      rw [hf, Option.some.injEq] at h
      subst h
      have hne := hyp [] (by simp [matchAt, getN, matchesB, labelOf, hm])
      rw [getLabel_node_nil] at hne ⊢
      exact ⟨hfind, by rw [hfind]; simpa using hne⟩
    | false =>
      have hf : firstMatchA "text" fname (.node l cs)
          = (firstMatchLA "text" fname cs).map (fun jp => jp.1 :: jp.2) := by
        simp only [firstMatchA, matchesB, labelOf, hm, Bool.false_eq_true,
          if_false]
      have hfind : find_text_field fname (.node l cs) = findTextList fname cs := by
        rw [find_text_field, if_neg (by simp [hm])]
      have hypL : ∀ (j : Nat) (c : Node), cs[j]? = some c → ∀ p, matchAt "text" fname c p = true →
          ((getLabel c p).map NodeLabel.text).getD "" ≠ "" := by
        intro j c hjc p hp
        have hga : getN (Node.node l cs) (j :: p) = getN c p := by
          rw [getN_cons, getF, hjc]
        have hmA : matchAt "text" fname (.node l cs) (j :: p) = true := by
          rw [matchAt, hga]
          rw [matchAt] at hp
          exact hp
        have := hyp (j :: p) hmA
        rw [getLabel, hga] at this
        rw [getLabel]
        exact this
      obtain ⟨hLnone, hLsome⟩ := findTextList_spec fname cs hypL
      refine ⟨?_, ?_⟩
      · intro h
        rw [hf, Option.map_eq_none'] at h
        rw [hfind, hLnone h]
      · intro p₀ h
        rw [hf, Option.map_eq_some'] at h
        obtain ⟨⟨j, p⟩, hjp, heq⟩ := h
        obtain rfl : j :: p = p₀ := heq
        obtain ⟨he, hne⟩ := hLsome j p hjp
        rw [getLabel_node_cons]
        exact ⟨by rw [hfind]; exact he, by rw [hfind]; exact hne⟩

/-- List-level companion of `findText_spec` for the child loop. -/
theorem findTextList_spec (fname : String) : ∀ cs : List Node,
    (∀ (j : Nat) (c : Node), cs[j]? = some c → ∀ p, matchAt "text" fname c p = true →
      ((getLabel c p).map NodeLabel.text).getD "" ≠ "") →
    (firstMatchLA "text" fname cs = none → findTextList fname cs = "")
    ∧ (∀ j₀ p₀, firstMatchLA "text" fname cs = some (j₀, p₀) →
        findTextList fname cs = ((getLabelF cs j₀ p₀).map NodeLabel.text).getD ""
        ∧ findTextList fname cs ≠ "")
  | [] => by
    intro _
    refine ⟨fun _ => rfl, fun j₀ p₀ h => ?_⟩
    simp [firstMatchLA] at h
  | c :: cs => by
    intro hyp
    have hyphead : ∀ p, matchAt "text" fname c p = true →
        ((getLabel c p).map NodeLabel.text).getD "" ≠ "" := by
      intro p hp
      exact hyp 0 c (by simp) p hp
    have hyptail : ∀ (j : Nat) (c' : Node), cs[j]? = some c' → ∀ p,
        matchAt "text" fname c' p = true →
        ((getLabel c' p).map NodeLabel.text).getD "" ≠ "" := by
      intro j c' hjc p hp
      exact hyp (j + 1) c' (by simpa using hjc) p hp
    obtain ⟨hc_none, hc_some⟩ := findText_spec fname c hyphead
    obtain ⟨hcs_none, hcs_some⟩ := findTextList_spec fname cs hyptail
    cases hfc : firstMatchA "text" fname c with
    | some p =>
      obtain ⟨he, hne⟩ := hc_some p hfc
      have hu : findTextList fname (c :: cs) = find_text_field fname c := by
        rw [findTextList, if_pos hne]
      have hfL : firstMatchLA "text" fname (c :: cs) = some (0, p) := by
        simp [firstMatchLA, hfc]
      refine ⟨fun h => by simp [hfL] at h, fun j₀ p₀ h => ?_⟩
      rw [hfL, Option.some.injEq] at h
      obtain ⟨rfl, rfl⟩ : 0 = j₀ ∧ p = p₀ := Prod.ext_iff.mp h
      rw [getLabelF_cons_zero]
      exact ⟨by rw [hu]; exact he, by rw [hu]; exact hne⟩
    | none =>
      have hcf : find_text_field fname c = "" := hc_none hfc
      have hu : findTextList fname (c :: cs) = findTextList fname cs := by
        rw [findTextList, hcf, if_neg (by simp)]
      have hfL : firstMatchLA "text" fname (c :: cs)
          = (firstMatchLA "text" fname cs).map (fun jp => (jp.1 + 1, jp.2)) := by
        simp [firstMatchLA, hfc]
      refine ⟨?_, ?_⟩
      · intro h
        rw [hfL, Option.map_eq_none'] at h
        rw [hu, hcs_none h]
      · intro j₀ p₀ h
        rw [hfL, Option.map_eq_some'] at h
        obtain ⟨⟨j, p⟩, hjp, heq⟩ := h
        obtain ⟨rfl, rfl⟩ : j + 1 = j₀ ∧ p = p₀ := Prod.ext_iff.mp heq
        obtain ⟨he, hne⟩ := hcs_some j p hjp
        rw [getLabelF_cons_succ]
        exact ⟨by rw [hu]; exact he, by rw [hu]; exact hne⟩
  termination_by structural cs => cs

end

/-- Tree on which `find_text_field` differs from the spec's
`extractByName`: the pre-order-first `(text, Title)` node has empty text,
so the Python truthiness test `if result:` skips it and the scan
continues to the second match. -/
def c8Tree : Node :=
  .node ⟨"group", "root", "", "", ""⟩
    [.node ⟨"text", "Title", "", "", ""⟩ [],
     .node ⟨"text", "Title", "B", "", ""⟩ []]

/-- **C8, counterexample.** `find_text_field` does not return the text of
the pre-order-first matching node: on `c8Tree` the first match holds `""`
but the function returns the second match's `"B"`. -/
theorem c8_extractByName_counterexample :
    find_text_field "Title" c8Tree = "B"
    ∧ extractByNameSpec "Title" c8Tree = ""
    ∧ find_text_field "Title" c8Tree ≠ extractByNameSpec "Title" c8Tree := by
  decide

/-- **C8 (amended).** Provided every `(text, name)`-matching node of the
tree carries non-empty text, `find_text_field` behaves as the read-only
variant of `findAndUpdate`: it returns the text value of the first node
matching `(text, name)` in depth-first pre-order, and the empty string
when no node matches. -/
theorem c8_extractByName_amended (fname : String) (t : Node)
    (h : ∀ p ∈ pathsOf t, matchAt "text" fname t p = true →
      ((getLabel t p).map NodeLabel.text).getD "" ≠ "") :
    find_text_field fname t = extractByNameSpec fname t := by
  have h' : ∀ p, matchAt "text" fname t p = true →
      ((getLabel t p).map NodeLabel.text).getD "" ≠ "" := by
    intro p hp
    refine h p ?_ hp
    have hval : (getN t p).isSome := by
      rw [matchAt] at hp
      cases hg : getN t p with
      | none => rw [hg] at hp; simp at hp
      | some n => simp
    exact mem_pathsOf t p hval
  obtain ⟨hnone, hsome⟩ := findText_spec fname t h'
  cases hf : firstMatch "text" fname t with
  | none =>
    rw [extractByNameSpec, hf]
    exact hnone ((firstMatchA_eq_firstMatch "text" fname t).trans hf)
  | some p =>
    rw [extractByNameSpec, hf]
    exact (hsome p ((firstMatchA_eq_firstMatch "text" fname t).trans hf)).1

/-- Tree with non-empty text at every match, for the C8 witness. -/
def c8TreeNE : Node :=
  .node ⟨"group", "root", "", "", ""⟩
    [.node ⟨"text", "Title", "A", "", ""⟩ [],
     .node ⟨"text", "Title", "B", "", ""⟩ []]

/-- Witness for the amended C8 on `c8TreeNE`. -/
theorem c8_extractByName_amended_witness :
    find_text_field "Title" c8TreeNE = extractByNameSpec "Title" c8TreeNE :=
  c8_extractByName_amended "Title" c8TreeNE (by decide)

end Node

/-!
## Deep copy (`json.loads(json.dumps(template))`)

`card_generator.py` line 100 and `simple_generator.py` line 53 clone the
template per record with a JSON round trip.  Aliasing is meaningful only
against an explicit object heap, so we model Python's object graph as a
store of cells (one per dict), each holding a `NodeLabel` and the
addresses of its children.  `readsB s a t` says the graph of store `s`
rooted at address `a` spells out the pure tree `t` (that pure tree is
exactly what `json.dumps` serialises).  `json.loads` materialises the
serialised tree as freshly allocated objects: `writeTree t s` appends
fresh cells to the store and returns the new root address.  Mutating a
dict in place (`data['text'] = value`) is overwriting one cell:
`List.set`. -/

namespace Heap

/-- One Python dict of a document: its scalar fields plus the heap
addresses of its children. -/
structure Cell where
  label : NodeLabel
  children : List Nat
  deriving Repr, DecidableEq

/-- A heap of document dicts; an address is an index. -/
abbrev Store := List Cell

mutual

/-- `readsB s a t`: the object graph of `s` rooted at address `a` spells
out the pure tree `t`. -/
def readsB (s : Store) : Nat → Node → Bool
  | a, .node l cs =>
    match s[a]? with
    | some cell => cell.label == l && readsChildren s cell.children cs
    | none => false
  termination_by structural _ t => t

/-- Pointwise `readsB` of an address list against a child list. -/
def readsChildren (s : Store) : List Nat → List Node → Bool
  | [], [] => true
  | a :: addrs, c :: cs => readsB s a c && readsChildren s addrs cs
  | _, _ => false
  termination_by structural _ cs => cs

end

mutual

/-- `json.loads` of the serialised tree `t`: append freshly allocated
cells for every node of `t` (children first) and return the new store
and the clone's root address. -/
def writeTree : Node → Store → Store × Nat
  | .node l cs, s =>
    let r := writeChildren cs s
    (r.1 ++ [⟨l, r.2⟩], r.1.length)
  termination_by structural t => t

/-- Allocate a list of sibling trees left to right. -/
def writeChildren : List Node → Store → Store × List Nat
  | [], s => (s, [])
  | c :: cs, s =>
    let r := writeTree c s
    let r2 := writeChildren cs r.1
    (r2.1, r.2 :: r2.2)
  termination_by structural cs => cs

end

/-- In-place mutation of one document dict: overwrite the cell at `b`. -/
def setCell (s : Store) (b : Nat) (cell : Cell) : Store :=
  s.set b cell

mutual

theorem writeTree_extends : ∀ (t : Node) (s : Store), s <+: (writeTree t s).1
  | .node l cs, s => by
    rw [writeTree]
    exact (writeChildren_extends cs s).trans (List.prefix_append _ _)
  termination_by structural t => t

theorem writeChildren_extends : ∀ (cs : List Node) (s : Store),
    s <+: (writeChildren cs s).1
  | [], s => by
    rw [writeChildren]
  | c :: cs, s => by
    rw [writeChildren]
    exact (writeTree_extends c s).trans
      (writeChildren_extends cs (writeTree c s).1)
  termination_by structural cs => cs

end

theorem writeTree_root_ge (t : Node) (s : Store) :
    s.length ≤ (writeTree t s).2 := by
  cases t with
  | node l cs =>
    rw [writeTree]
    exact (writeChildren_extends cs s).length_le

mutual

/-- Reading survives any store change that keeps every populated address
of the derivation intact. -/
theorem readsB_of_agree : ∀ (t : Node) (s s' : Store) (a : Nat),
    (∀ (i : Nat) (c : Cell), s[i]? = some c → s'[i]? = some c) →
    readsB s a t = true → readsB s' a t = true
  | .node l cs, s, s', a => by
    intro hag h
    rw [readsB] at h ⊢
    cases hc : s[a]? with
    | none => rw [hc] at h; exact absurd h (by simp)
    | some cell =>
      rw [hc] at h
      rw [hag a cell hc]
      simp only [Bool.and_eq_true] at h ⊢
      exact ⟨h.1, readsChildren_of_agree cs s s' cell.children hag h.2⟩
  termination_by structural t => t

/-- List-level companion of `readsB_of_agree`. -/
theorem readsChildren_of_agree : ∀ (cs : List Node) (s s' : Store)
    (addrs : List Nat),
    (∀ (i : Nat) (c : Cell), s[i]? = some c → s'[i]? = some c) →
    readsChildren s addrs cs = true → readsChildren s' addrs cs = true
  | [], s, s', addrs => by
    intro hag h
    cases addrs with
    | nil => rfl
    | cons a rest => simp [readsChildren] at h
  | c :: cs, s, s', addrs => by
    intro hag h
    cases addrs with
    | nil => simp [readsChildren] at h
    | cons a rest =>
      rw [readsChildren] at h ⊢
      simp only [Bool.and_eq_true] at h ⊢
      exact ⟨readsB_of_agree c s s' a hag h.1,
        readsChildren_of_agree cs s s' rest hag h.2⟩
  termination_by structural cs => cs

end

theorem agree_append (s ext : Store) :
    ∀ (i : Nat) (c : Cell), s[i]? = some c → (s ++ ext)[i]? = some c := by
  intro i c h
  have hi : i < s.length := (List.getElem?_eq_some.mp h).1
  rw [List.getElem?_append]
  simp only [hi, if_true]
  exact h

theorem agree_set_high (s ext : Store) (b : Nat) (cell : Cell)
    (hb : s.length ≤ b) :
    ∀ (i : Nat) (c : Cell), s[i]? = some c →
      ((s ++ ext).set b cell)[i]? = some c := by
  intro i c h
  have hi : i < s.length := (List.getElem?_eq_some.mp h).1
  rw [List.getElem?_set_ne (by omega)]
  exact agree_append s ext i c h

mutual

/-- The clone reads back as the tree it was written from. -/
theorem writeTree_reads : ∀ (t : Node) (s : Store),
    readsB (writeTree t s).1 (writeTree t s).2 t = true
  | .node l cs, s => by
    rw [writeTree, readsB]
    rw [List.getElem?_concat_length]
    simp only [beq_self_eq_true, Bool.true_and]
    refine readsChildren_of_agree cs (writeChildren cs s).1 _
      (writeChildren cs s).2 (agree_append _ _) ?_
    exact writeChildren_reads cs s
  termination_by structural t => t

/-- List-level companion of `writeTree_reads`. -/
theorem writeChildren_reads : ∀ (cs : List Node) (s : Store),
    readsChildren (writeChildren cs s).1 (writeChildren cs s).2 cs = true
  | [], s => by
    rw [writeChildren]
    rfl
  | c :: cs, s => by
    rw [writeChildren, readsChildren]
    simp only [Bool.and_eq_true]
    constructor
    · obtain ⟨ext, hext⟩ := writeChildren_extends cs (writeTree c s).1
      refine readsB_of_agree c (writeTree c s).1 _ (writeTree c s).2 ?_
        (writeTree_reads c s)
      rw [← hext]
      exact agree_append _ _
    · exact writeChildren_reads cs (writeTree c s).1
  termination_by structural cs => cs

end

end Heap

namespace Heap

/-- **C5.** Cloning a document by the JSON round trip
(`json.loads(json.dumps(template))`) and then mutating any node of the
clone never changes the original: the clone is written entirely into
fresh cells (the store only grows, and the clone's root — like every
clone cell — sits at or above the old store length), the clone spells
out the same tree as the source, and overwriting any fresh cell leaves
the original root still spelling exactly its old tree `t`, at every
nesting depth. -/
theorem c5_clone_deep_copy (s : Store) (a : Nat) (t : Node)
    (h : readsB s a t = true) :
    s <+: (writeTree t s).1
    ∧ s.length ≤ (writeTree t s).2
    ∧ readsB (writeTree t s).1 (writeTree t s).2 t = true
    ∧ ∀ (b : Nat) (cell : Cell), s.length ≤ b →
        readsB (setCell (writeTree t s).1 b cell) a t = true := by
  refine ⟨writeTree_extends t s, writeTree_root_ge t s, writeTree_reads t s, ?_⟩
  intro b cell hb
  obtain ⟨ext, hext⟩ := writeTree_extends t s
  rw [setCell, ← hext]
  exact readsB_of_agree t s _ a (agree_set_high s ext b cell hb) h

/-- Concrete one-node document for the C5 witness. -/
def c5Doc : Node := .node ⟨"text", "Title", "x", "", ""⟩ []

/-- Store holding `c5Doc` at address 0, for the C5 witness. -/
def c5Store : Store := [⟨⟨"text", "Title", "x", "", ""⟩, []⟩]

/-- Witness for C5: clone `c5Doc`, smash the clone's root cell, and the
original address still reads back the original tree. -/
theorem c5_clone_deep_copy_witness :
    readsB (setCell (writeTree c5Doc c5Store).1 1 ⟨⟨"", "", "", "", ""⟩, []⟩)
      0 c5Doc = true :=
  (c5_clone_deep_copy c5Store 0 c5Doc (by decide)).2.2.2 1
    ⟨⟨"", "", "", "", ""⟩, []⟩ (by decide)

end Heap

/-!
## Overlay placement (`cardconjurer_automation.py` lines 374–439)

`overlay_art_on_card_with_bounds` computes a scale factor from the
bounds rectangle and the art size, resizes the art to
`max(1, int(aw*scale)) × max(1, int(ah*scale))`, and aligns the result
inside the rectangle.  Python's float arithmetic is modelled with exact
rationals (the quantities compared in the theorems below are exactly
representable), and Python's `int()` — truncation toward zero — with
`pyInt`. -/

/-- Python `int()` on a rational: truncation toward zero. -/
def pyInt (q : ℚ) : Int :=
  if 0 ≤ q then ⌊q⌋ else ⌈q⌉

/-- The `bounds` dict read by `overlay_art_on_card_with_bounds`
(`cardconjurer_automation.py` lines 386–404): `x`/`y`/`width`/`height`
already passed through `int(...)`, plus the optional `type`,
`horizontal` and `vertical` keys. -/
structure Bounds where
  x : Int
  y : Int
  width : Int
  height : Int
  btype : Option String
  horizontal : Option String
  vertical : Option String
  deriving Repr, DecidableEq

/-- Outcome of the overlay geometry: scale factor, resized art size, and
the paste position of the art. -/
structure OverlayPlacement where
  scale : ℚ
  new_w : Int
  new_h : Int
  ax : Int
  ay : Int
  deriving Repr, DecidableEq

/-- The geometry of `overlay_art_on_card_with_bounds`
(`cardconjurer_automation.py` lines 392–418) for art of size `aw × ah`:
`'fill'` takes the larger of the two cover ratios, anything else the
smaller of the two contain ratios capped at 1.0; the resized dimensions
are `max(1, int(aw*scale))`, `max(1, int(ah*scale))`; alignment defaults
to `center`, with Python's floor division `//` mapped to `Int.fdiv`. -/
def overlay_art_on_card_with_bounds (aw ah : Nat) (b : Bounds) : OverlayPlacement :=
  let scale : ℚ :=
    if b.btype = some "fill" then
      max ((b.width : ℚ) / aw) ((b.height : ℚ) / ah)
    else
      min (min ((b.width : ℚ) / aw) ((b.height : ℚ) / ah)) 1
  let new_w : Int := max 1 (pyInt ((aw : ℚ) * scale))
  let new_h : Int := max 1 (pyInt ((ah : ℚ) * scale))
  let horiz := b.horizontal.getD "center"
  let vert := b.vertical.getD "center"
  let ax : Int :=
    if horiz = "left" then b.x
    else if horiz = "right" then b.x + b.width - new_w
    else b.x + Int.fdiv (b.width - new_w) 2
  let ay : Int :=
    if vert = "top" then b.y
    else if vert = "bottom" then b.y + b.height - new_h
    else b.y + Int.fdiv (b.height - new_h) 2
  ⟨scale, new_w, new_h, ax, ay⟩

/-- The resized dimensions as the spec words them: `round(art.width·scale)`
and `round(art.height·scale)`, each floored at 1 pixel.  To be compared
with the source-translated computation. -/
def overlayDimsSpec (aw ah : Nat) (b : Bounds) : Int × Int :=
  let scale := (overlay_art_on_card_with_bounds aw ah b).scale
  (max 1 (round ((aw : ℚ) * scale)), max 1 (round ((ah : ℚ) * scale)))

/-- Fit bounds 2×3 for the C2 counterexample. -/
def c2Bounds : Bounds := ⟨0, 0, 2, 3, none, none, none⟩

/-- **C2, counterexample.** For art 4×3 in fit bounds 2×3 the scale is
1/2 and `3·scale = 3/2`: the code's `int()` truncates it to 1, while the
spec's `round` gives 2 — the resized height is not
`max(1, round(art.height·scale))`. -/
theorem c2_overlay_round_counterexample :
    (overlay_art_on_card_with_bounds 4 3 c2Bounds).scale = 1 / 2
    ∧ (overlay_art_on_card_with_bounds 4 3 c2Bounds).new_h = 1
    ∧ (overlayDimsSpec 4 3 c2Bounds).2 = 2
    ∧ (overlay_art_on_card_with_bounds 4 3 c2Bounds).new_h
        ≠ (overlayDimsSpec 4 3 c2Bounds).2 := by
  have hnf : ((none : Option String) = some "fill") = False := by simp
  have key : overlay_art_on_card_with_bounds 4 3 c2Bounds
      = ⟨1 / 2, 2, 1, 0, 1⟩ := by
    rw [overlay_art_on_card_with_bounds, c2Bounds]
    simp only [hnf, if_false]
    norm_num [pyInt, Option.getD]
    decide
  have hs : (overlay_art_on_card_with_bounds 4 3 c2Bounds).scale = 1 / 2 := by
    rw [key]
  have hh : (overlay_art_on_card_with_bounds 4 3 c2Bounds).new_h = 1 := by
    rw [key]
  have hr : (overlayDimsSpec 4 3 c2Bounds).2 = 2 := by
    rw [overlayDimsSpec, hs]
    norm_num [round_eq]
  exact ⟨hs, hh, hr, by rw [hh, hr]; decide⟩

/-- **C2 (amended).** For every bounds rectangle and art size, the scale
factor is `max(bounds.width/art.width, bounds.height/art.height)` when
placement is `fill` and
`min(bounds.width/art.width, bounds.height/art.height, 1.0)` otherwise,
and the resized art dimensions are `int(art.width·scale)` and
`int(art.height·scale)` — truncation toward zero, not rounding to
nearest — each floored at 1 pixel. -/
theorem c2_overlay_scale_and_dims (aw ah : Nat) (b : Bounds) :
    (overlay_art_on_card_with_bounds aw ah b).scale
      = (if b.btype = some "fill" then
          max ((b.width : ℚ) / aw) ((b.height : ℚ) / ah)
        else
          min (min ((b.width : ℚ) / aw) ((b.height : ℚ) / ah)) 1)
    ∧ (overlay_art_on_card_with_bounds aw ah b).new_w
      = max 1 (pyInt ((aw : ℚ) * (overlay_art_on_card_with_bounds aw ah b).scale))
    ∧ (overlay_art_on_card_with_bounds aw ah b).new_h
      = max 1 (pyInt ((ah : ℚ) * (overlay_art_on_card_with_bounds aw ah b).scale)) :=
  ⟨rfl, rfl, rfl⟩

/-!
## Grid stitching, pagination and resolution (`image_stitcher.py`)

The pagination, grid-placement and rescale logic of `ImageStitcher`.
File outputs are modelled by returning the data the code would write
(sheet contents, paste operations, file names) instead of performing
I/O. -/

namespace ImageStitcher

/-- `ImageStitcher.create_tabletop_simulator_deck` (`image_stitcher.py`
lines 236–285), restricted to its pagination policy: the list of sheets,
each carrying its slice `image_paths[start_idx:end_idx]`, its row count
`(len(sheet_images) + cols - 1) // cols`, and its output file name
`deck_sheet_{sheet_idx + 1}.png`. -/
def create_tabletop_simulator_deck {α : Type} (paths : List α)
    (cards_per_sheet cols : Nat) : List (List α × Nat × String) :=
  let total := paths.length
  let sheet_count := (total + cards_per_sheet - 1) / cards_per_sheet
  (List.range sheet_count).map (fun sheet_idx =>
    let start := sheet_idx * cards_per_sheet
    let stop := min (start + cards_per_sheet) total
    let sheet_images := (paths.drop start).take (stop - start)
    let rows := (sheet_images.length + cols - 1) / cols
    (sheet_images, rows, "deck_sheet_" ++ toString (sheet_idx + 1) ++ ".png"))

theorem take_slice_clamp {α : Type} (l : List α) (s cps : Nat) :
    (l.drop s).take (min (s + cps) l.length - s) = (l.drop s).take cps := by
  rcases le_or_lt (s + cps) l.length with h | h
  · rw [min_eq_left h]
    congr 1
    omega
  · rw [min_eq_right (le_of_lt h)]
    have hlen : (l.drop s).length = l.length - s := List.length_drop s l
    rw [List.take_of_length_le (by omega), List.take_of_length_le (by omega)]

theorem join_range_chunks {α : Type} (cps : Nat) :
    ∀ (k : Nat) (l : List α), l.length ≤ k * cps →
    ((List.range k).map (fun i => (l.drop (i * cps)).take cps)).flatten = l := by
  intro k
  induction k with
  | zero =>
    intro l hl
    rw [Nat.zero_mul] at hl
    have hnil : l = [] := List.length_eq_zero.mp (by omega)
    subst hnil
    rfl
  | succ k ih =>
    intro l hl
    rw [List.range_succ_eq_map, List.map_cons, List.flatten_cons, List.map_map]
    have hf : ((fun i => (l.drop (i * cps)).take cps) ∘ Nat.succ)
        = fun i => ((l.drop cps).drop (i * cps)).take cps := by
      funext i
      simp only [Function.comp_apply, List.drop_drop]
      rw [show Nat.succ i * cps = cps + i * cps from by rw [Nat.succ_mul, Nat.add_comm]]
    rw [hf]
    have hrest : (l.drop cps).length ≤ k * cps := by
      rw [List.length_drop]
      have hmul : (k + 1) * cps = k * cps + cps := by ring
      omega
    rw [ih (l.drop cps) hrest]
    have hzero : 0 * cps = 0 := Nat.zero_mul cps
    rw [hzero, List.drop_zero, List.take_append_drop]

theorem le_ceilDiv_mul (a b : Nat) (hb : 0 < b) :
    a ≤ (a + b - 1) / b * b := by
  rcases Nat.eq_zero_or_pos a with rfl | ha
  · simp
  · have h1 : a + b - 1 = (a - 1) + b := by omega
    rw [h1, Nat.add_div_right _ hb]
    have h2 := Nat.div_add_mod (a - 1) b
    have h3 : (a - 1) % b < b := Nat.mod_lt _ hb
    have h4 : ((a - 1) / b + 1) * b = b * ((a - 1) / b) + b := by ring
    omega

/-- **C3.** For every image list and positive `cards_per_sheet` and
`cols`, `create_tabletop_simulator_deck` produces
`ceil(total/cards_per_sheet)` sheets whose slices are contiguous, in
order, and concatenate back to the whole input (so their sizes sum to
the total); every sheet holds at most `cards_per_sheet` images; each
sheet's row count is `ceil(sheetSize/cols)`; and the `n`-th sheet file is
named `deck_sheet_{n}` with a 1-based index. -/
theorem c3_paginate {α : Type} (paths : List α) (cps cols : Nat)
    (hcps : 0 < cps) (_hcols : 0 < cols) :
    (create_tabletop_simulator_deck paths cps cols).length
      = (paths.length + cps - 1) / cps
    ∧ ((create_tabletop_simulator_deck paths cps cols).map
        (fun s => s.1)).flatten = paths
    ∧ (∀ s ∈ create_tabletop_simulator_deck paths cps cols, s.1.length ≤ cps)
    ∧ (∀ s ∈ create_tabletop_simulator_deck paths cps cols,
        s.2.1 = (s.1.length + cols - 1) / cols)
    ∧ (∀ (n : Nat) (h : n < (create_tabletop_simulator_deck paths cps cols).length),
        ((create_tabletop_simulator_deck paths cps cols).get ⟨n, h⟩).2.2
          = "deck_sheet_" ++ toString (n + 1) ++ ".png") := by
  rw [create_tabletop_simulator_deck]
  refine ⟨by rw [List.length_map, List.length_range], ?_, ?_, ?_, ?_⟩
  · rw [List.map_map]
    have hfun : ((fun s : List α × Nat × String => s.1)
          ∘ (fun sheet_idx =>
            ((paths.drop (sheet_idx * cps)).take
              (min (sheet_idx * cps + cps) paths.length - sheet_idx * cps),
             (((paths.drop (sheet_idx * cps)).take
              (min (sheet_idx * cps + cps) paths.length - sheet_idx * cps)).length
                + cols - 1) / cols,
             "deck_sheet_" ++ toString (sheet_idx + 1) ++ ".png")))
        = fun i => (paths.drop (i * cps)).take cps := by
      funext i
      simp only [Function.comp_apply]
      exact take_slice_clamp paths (i * cps) cps
    rw [hfun]
    exact join_range_chunks cps _ paths (le_ceilDiv_mul paths.length cps hcps)
  · intro s hs
    rw [List.mem_map] at hs
    obtain ⟨i, _, rfl⟩ := hs
    simp only [List.length_take, List.length_drop]
    omega
  · intro s hs
    rw [List.mem_map] at hs
    obtain ⟨i, _, rfl⟩ := hs
    rfl
  · intro n h
    simp only [List.get_eq_getElem, List.getElem_map, List.getElem_range]

/-- Witness for C3: 3 images at 2 cards per sheet, 1 column — 2 sheets
that concatenate back to the input, first sheet named `deck_sheet_1.png`. -/
theorem c3_paginate_witness :
    ((create_tabletop_simulator_deck [10, 20, 30] 2 1).map
      (fun s => s.1)).flatten = [10, 20, 30]
    ∧ (create_tabletop_simulator_deck [10, 20, 30] 2 1).length = (3 + 2 - 1) / 2
    ∧ ((create_tabletop_simulator_deck [10, 20, 30] 2 1).get
        ⟨0, by decide⟩).2.2 = "deck_sheet_" ++ toString (0 + 1) ++ ".png" :=
  ⟨(c3_paginate [10, 20, 30] 2 1 (by decide) (by decide)).2.1,
   (c3_paginate [10, 20, 30] 2 1 (by decide) (by decide)).1,
   (c3_paginate [10, 20, 30] 2 1 (by decide) (by decide)).2.2.2.2 0 (by decide)⟩

/-- A paste operation's content: a loaded card image, or the blank
placeholder bitmap created for a missing cell
(`image_stitcher.py` line 107). -/
inductive CellContent (α : Type) where
  | img (a : α)
  | blank (w h : Nat) (color : RGB)
  deriving Repr, DecidableEq

/-- The grid canvas assembled by `stitch_images` before the optional
rescale: its dimensions, background color, and the ordered list of
`canvas.paste(content, (x, y))` operations. -/
structure GridCanvas (α : Type) where
  width : Nat
  height : Nat
  background : RGB
  pastes : List (CellContent α × Nat × Nat)
  deriving Repr, DecidableEq

/-- `ImageStitcher.load_images` (`image_stitcher.py` lines 28–47): each
path's decode is given as `Option α` (`none` = `Image.open` raised); the
failures are skipped, the successes kept in order. -/
def load_images {α : Type} (decoded : List (Option α)) : List α :=
  decoded.filterMap id

/-- The grid-composition part of `ImageStitcher.stitch_images`
(`image_stitcher.py` lines 76–108): load the images, bail out with
`False` (here `none`) if none loaded, otherwise build the canvas of
§lines 91–93 and paste image `idx` — or the fixed `(240, 240, 240)`
blank if `idx` is past the loaded images — at
`(col·(W+spacing), row·(H+spacing))` for `idx < rows*cols`. -/
def stitch_images {α : Type} (W H : Nat) (decoded : List (Option α))
    (rows cols spacing : Nat) (bg : RGB) : Option (GridCanvas α) :=
  let images := load_images decoded
  if images.isEmpty then none
  else some
    { width := cols * W + (cols - 1) * spacing
      height := rows * H + (rows - 1) * spacing
      background := bg
      pastes := (List.range (rows * cols)).map (fun idx =>
        let row := idx / cols
        let col := idx % cols
        let x := col * (W + spacing)
        let y := row * (H + spacing)
        (match images[idx]? with
         | some im => CellContent.img im
         | none => CellContent.blank W H (240, 240, 240), x, y)) }

/-- **C4.** For valid (positive) `rows` and `cols`, the canvas built by
`stitch_images` measures exactly `cols·W+(cols−1)·spacing` by
`rows·H+(rows−1)·spacing`, holds one paste per cell, and pastes loaded
image `i` row-major at column `i % cols`, row `i / cols`, at pixel
position `((i % cols)·(W+spacing), (i / cols)·(H+spacing))`. -/
theorem c4_composeGrid_dims_and_placement {α : Type} (W H : Nat)
    (decoded : List (Option α)) (rows cols spacing : Nat) (bg : RGB)
    (g : GridCanvas α) (_hrows : 1 ≤ rows) (_hcols : 1 ≤ cols)
    (hg : stitch_images W H decoded rows cols spacing bg = some g) :
    g.width = cols * W + (cols - 1) * spacing
    ∧ g.height = rows * H + (rows - 1) * spacing
    ∧ g.pastes.length = rows * cols
    ∧ ∀ (i : Nat) (hi : i < (load_images decoded).length), i < rows * cols →
        g.pastes[i]? = some (.img ((load_images decoded).get ⟨i, hi⟩),
          (i % cols) * (W + spacing), (i / cols) * (H + spacing)) := by
  rw [stitch_images] at hg
  by_cases hne : (load_images decoded).isEmpty
  · rw [if_pos hne] at hg
    exact absurd hg (by simp)
  · rw [if_neg hne, Option.some.injEq] at hg
    subst hg
    refine ⟨rfl, rfl, by rw [List.length_map, List.length_range], ?_⟩
    intro i hi hcell
    rw [List.getElem?_map, List.getElem?_range hcell, Option.map_some']
    rw [List.getElem?_eq_getElem hi, List.get_eq_getElem]

/-- Input whose background equals the placeholder color, for the C7
counterexample: one loaded image in a 1×2 grid. -/
def c7Decoded : List (Option Nat) := [some 0]

/-- **C7, counterexample.** The placeholder bitmap's fill color is the
fixed `(240, 240, 240)`; a caller may pass exactly that background, and
then the blank cell's fill color equals the canvas background rather
than being distinct from it. -/
theorem c7_blank_fill_counterexample :
    (stitch_images 10 10 c7Decoded 1 2 0 (240, 240, 240)).map
        (fun g => g.pastes[1]?)
      = some (some (CellContent.blank 10 10 (240, 240, 240), 10, 0))
    ∧ (stitch_images 10 10 c7Decoded 1 2 0 (240, 240, 240)).map
        (fun g => g.background) = some (240, 240, 240) := by
  decide

/-- **C7 (amended).** When fewer images are supplied than `rows·cols`,
every remaining cell is filled with a solid placeholder bitmap of the
cell size `W × H` whose fill color is the constant `(240, 240, 240)` —
distinct from the default background `(255, 255, 255)`, but equal to the
background whenever the caller passes `(240, 240, 240)` itself. -/
theorem c7_blank_fill_amended {α : Type} (W H : Nat)
    (decoded : List (Option α)) (rows cols spacing : Nat) (bg : RGB)
    (g : GridCanvas α)
    (hg : stitch_images W H decoded rows cols spacing bg = some g) :
    (∀ (i : Nat), (load_images decoded).length ≤ i → i < rows * cols →
        g.pastes[i]? = some (.blank W H (240, 240, 240),
          (i % cols) * (W + spacing), (i / cols) * (H + spacing)))
    ∧ ((240, 240, 240) : RGB) ≠ ((255, 255, 255) : RGB) := by
  rw [stitch_images] at hg
  by_cases hne : (load_images decoded).isEmpty
  · rw [if_pos hne] at hg
    exact absurd hg (by simp)
  · rw [if_neg hne, Option.some.injEq] at hg
    subst hg
    refine ⟨?_, by decide⟩
    intro i hlow hcell
    rw [List.getElem?_map, List.getElem?_range hcell, Option.map_some']
    rw [List.getElem?_eq_none hlow]

/-- The canvas `stitch_images` builds for the C4 witness input. -/
def c4Canvas : GridCanvas Nat :=
  ⟨23, 20, (255, 255, 255), [(.img 7, 0, 0), (.img 8, 13, 0)]⟩

/-- Witness for C4: two images in a 1×2 grid with spacing 3. -/
theorem c4_composeGrid_witness :
    stitch_images 10 20 [some 7, some 8] 1 2 3 (255, 255, 255) = some c4Canvas
    ∧ c4Canvas.width = 2 * 10 + (2 - 1) * 3
    ∧ c4Canvas.pastes[1]?
        = some (.img ((load_images [some 7, some 8]).get ⟨1, by decide⟩),
            (1 % 2) * (10 + 3), (1 / 2) * (20 + 3)) :=
  ⟨by decide,
   (c4_composeGrid_dims_and_placement 10 20 [some 7, some 8] 1 2 3
      (255, 255, 255) c4Canvas (by decide) (by decide) (by decide)).1,
   (c4_composeGrid_dims_and_placement 10 20 [some 7, some 8] 1 2 3
      (255, 255, 255) c4Canvas (by decide) (by decide) (by decide)).2.2.2 1
      (by decide) (by decide)⟩

/-- The canvas `stitch_images` builds for the C7 witness input. -/
def c7Canvas : GridCanvas Nat :=
  ⟨20, 20, (0, 0, 0), [(.img 7, 0, 0), (.blank 10 20 (240, 240, 240), 10, 0)]⟩

/-- Witness for the amended C7: one image in a 1×2 grid, the second cell
is the fixed placeholder. -/
theorem c7_blank_fill_amended_witness :
    stitch_images 10 20 [some 7] 1 2 0 (0, 0, 0) = some c7Canvas
    ∧ c7Canvas.pastes[1]? = some (.blank 10 20 (240, 240, 240),
        (1 % 2) * (10 + 0), (1 / 2) * (20 + 0)) :=
  ⟨by decide,
   (c7_blank_fill_amended 10 20 [some 7] 1 2 0 (0, 0, 0) c7Canvas
      (by decide)).1 1 (by decide) (by decide)⟩

/-- **C10.** When no image loads (empty input list or every decode
fails), `stitch_images` returns `False` and builds no canvas at all. -/
theorem c10_no_images_no_canvas {α : Type} (W H : Nat)
    (decoded : List (Option α)) (rows cols spacing : Nat) (bg : RGB)
    (hall : ∀ d ∈ decoded, d = none) :
    stitch_images W H decoded rows cols spacing bg = none := by
  rw [stitch_images]
  have hempty : load_images decoded = [] := by
    rw [load_images, List.filterMap_eq_nil_iff]
    intro a ha
    rw [hall a ha]
    rfl
  rw [if_pos (by rw [hempty]; rfl)]

/-- Witness for C10: both decodes fail. -/
theorem c10_no_images_no_canvas_witness :
    stitch_images 10 20 ([none, none] : List (Option Nat)) 2 2 0
      (255, 255, 255) = none :=
  c10_no_images_no_canvas 10 20 [none, none] 2 2 0 (255, 255, 255)
    (by decide)

end ImageStitcher

namespace ImageStitcher

/-- A final canvas for the rescale step: its PIL size plus abstract pixel
content. -/
structure Canvas (α : Type) where
  width : Nat
  height : Nat
  data : α
  deriving Repr, DecidableEq

/-- The `preset_map` dict of `image_stitcher.py` lines 112–117. -/
def preset_map : String → Option Nat
  | "4k" => some 3840
  | "2k" => some 2560
  | "1080p" => some 1920
  | "720p" => some 1280
  | _ => none

/-- Python's `str.lower()`, written as a character map so that it is
kernel-computable (it agrees with `String.toLower`). -/
def pyLower (s : String) : String := String.mk (s.data.map Char.toLower)

/-- `if preset and preset.lower() in preset_map`
(`image_stitcher.py` line 121): an empty preset string is falsy. -/
def presetLookup (preset : Option String) : Option Nat :=
  match preset with
  | some p => if p = "" then none else preset_map (pyLower p)
  | none => none

/-- The `target_w` selection of `image_stitcher.py` lines 120–124: the
preset wins when it resolves; otherwise a truthy (non-zero) integer
`target_width` is used only when positive. -/
def resolveTarget (preset : Option String) (target_width : Option Int) :
    Option Int :=
  match presetLookup preset with
  | some w => some (w : Int)
  | none =>
    match target_width with
    | some w => if 0 < w then some w else none
    | none => none

/-- The rescale step of `ImageStitcher.stitch_images`
(`image_stitcher.py` lines 119–130): if a target width resolved and the
canvas is wider, resize to
`(target_w, int(canvas_height * (target_w / canvas_width)))` — otherwise
return the canvas unchanged.  `resample` stands for PIL's
`Image.resize(..., LANCZOS)` and is constrained only by its returned
size. -/
def applyResolution {α : Type} (resample : Canvas α → Nat → Nat → Canvas α)
    (c : Canvas α) (preset : Option String) (target_width : Option Int) :
    Canvas α :=
  match resolveTarget preset target_width with
  | some tw =>
    if tw < (c.width : Int) then
      let new_h : Nat :=
        Int.toNat (pyInt ((c.height : ℚ) * ((tw : ℚ) / (c.width : ℚ))))
      resample c (Int.toNat tw) new_h
    else c
  | none => c

theorem preset_map_pos (p : String) (w : Nat) (h : preset_map p = some w) :
    0 < w := by
  rw [preset_map.eq_def] at h
  split at h <;> simp_all <;> omega

theorem resolveTarget_pos (preset : Option String) (target_width : Option Int)
    (w : Int) (h : resolveTarget preset target_width = some w) : 0 < w := by
  rw [resolveTarget.eq_def] at h
  split at h
  · rename_i v heq
    rw [Option.some.injEq] at h
    subst h
    have hv : 0 < v := by
      cases preset with
      | none => simp [presetLookup] at heq
      | some p =>
        rw [presetLookup] at heq
        by_cases he : p = ""
        · rw [if_pos he] at heq
          exact absurd heq (by simp)
        · rw [if_neg he] at heq
          exact preset_map_pos _ _ heq
    exact_mod_cast hv
  · rename_i heq
    split at h
    · rename_i v
      split at h
      · rename_i hv
        rw [Option.some.injEq] at h
        omega
      · exact absurd h (by simp)
    · exact absurd h (by simp)

theorem applyResolution_of_some {α : Type}
    (resample : Canvas α → Nat → Nat → Canvas α) (c : Canvas α)
    (preset : Option String) (target_width : Option Int) (tw : Int)
    (h : resolveTarget preset target_width = some tw) :
    applyResolution resample c preset target_width
      = if tw < (c.width : Int) then
          resample c (Int.toNat tw)
            (Int.toNat (pyInt ((c.height : ℚ) * ((tw : ℚ) / (c.width : ℚ)))))
        else c := by
  rw [applyResolution, h]

theorem applyResolution_of_none {α : Type}
    (resample : Canvas α → Nat → Nat → Canvas α) (c : Canvas α)
    (preset : Option String) (target_width : Option Int)
    (h : resolveTarget preset target_width = none) :
    applyResolution resample c preset target_width = c := by
  rw [applyResolution, h]

/-- **C6.** `applyResolution` is idempotent: provided the resampler
returns a canvas of the requested width (as PIL's `resize` does),
applying a preset (or explicit width) twice equals applying it once —
after the first application the width is at most the target, so the
second application's `canvas_width > target_w` test fails and the canvas
is returned unchanged. -/
theorem c6_applyResolution_idempotent {α : Type}
    (resample : Canvas α → Nat → Nat → Canvas α)
    (hres : ∀ (c : Canvas α) (w h : Nat), (resample c w h).width = w)
    (c : Canvas α) (preset : Option String) (target_width : Option Int) :
    applyResolution resample (applyResolution resample c preset target_width)
        preset target_width
      = applyResolution resample c preset target_width := by
  cases hr : resolveTarget preset target_width with
  | none =>
    rw [applyResolution_of_none resample _ _ _ hr,
      applyResolution_of_none resample _ _ _ hr]
  | some tw =>
    have htw : 0 < tw := resolveTarget_pos preset target_width tw hr
    by_cases hw : tw < (c.width : Int)
    · have h1 : applyResolution resample c preset target_width
          = resample c (Int.toNat tw)
              (Int.toNat (pyInt ((c.height : ℚ) * ((tw : ℚ) / (c.width : ℚ))))) := by
        rw [applyResolution_of_some resample c _ _ tw hr, if_pos hw]
      rw [h1, applyResolution_of_some resample _ _ _ tw hr]
      rw [if_neg (by rw [hres]; omega)]
    · rw [applyResolution_of_some resample c _ _ tw hr, if_neg hw,
        applyResolution_of_some resample c _ _ tw hr, if_neg hw]

/-- Resampler for concrete C6/C9 evaluations: returns the requested
size. -/
def plainResample : Canvas Nat → Nat → Nat → Canvas Nat :=
  fun c w h => ⟨w, h, c.data⟩

/-- Witness for C6: a 5000-wide canvas scaled with the `1080p` preset,
twice. -/
theorem c6_applyResolution_idempotent_witness :
    applyResolution plainResample
        (applyResolution plainResample ⟨5000, 1000, 0⟩ (some "1080p") none)
        (some "1080p") none
      = applyResolution plainResample ⟨5000, 1000, 0⟩ (some "1080p") none :=
  c6_applyResolution_idempotent plainResample (fun _ _ _ => rfl)
    ⟨5000, 1000, 0⟩ (some "1080p") none

/-- **C9, counterexample.** "An explicit target width ≤ 0 or an unknown
preset name causes the rescale step to return the canvas unchanged" is
not universally true: an unknown preset supplied together with a valid
explicit width falls through to the `target_width` branch
(`image_stitcher.py` line 123) and the canvas is rescaled. -/
theorem c9_config_error_counterexample :
    applyResolution plainResample ⟨5000, 1000, 0⟩ (some "bogus") (some 1000)
      ≠ ⟨5000, 1000, 0⟩ := by
  have h1 : resolveTarget (some "bogus") (some 1000) = some 1000 := by decide
  rw [applyResolution_of_some plainResample _ _ _ 1000 h1, if_pos (by decide)]
  simp [plainResample]

/-- **C9 (amended).** Configuration errors degrade to the identity
transform as long as no valid configuration accompanies them: when the
preset is absent, empty or unknown AND the explicit target width is
absent or non-positive, the rescale step performs no rescale and returns
the canvas unchanged rather than failing.  (An unknown preset together
with a positive explicit width still rescales by that width, and a
non-positive width together with a known preset still rescales by the
preset.) -/
theorem c9_config_error_identity {α : Type}
    (resample : Canvas α → Nat → Nat → Canvas α) (c : Canvas α)
    (preset : Option String) (target_width : Option Int)
    (hp : presetLookup preset = none)
    (ht : ∀ w : Int, target_width = some w → w ≤ 0) :
    applyResolution resample c preset target_width = c := by
  have hr : resolveTarget preset target_width = none := by
    cases target_width with
    | none => rw [resolveTarget.eq_def, hp]
    | some w =>
      rw [resolveTarget.eq_def, hp]
      show (if 0 < w then some w else none) = none
      rw [if_neg (by have := ht w rfl; omega)]
  exact applyResolution_of_none resample c _ _ hr

/-- Witness for the amended C9: unknown preset and negative explicit
width leave the canvas untouched. -/
theorem c9_config_error_identity_witness :
    applyResolution plainResample ⟨5000, 1000, 0⟩ (some "bogus") (some (-5))
      = ⟨5000, 1000, 0⟩ :=
  c9_config_error_identity plainResample ⟨5000, 1000, 0⟩ (some "bogus")
    (some (-5)) (by decide) (fun w h => by cases h; decide)

end ImageStitcher
